import Mathlib

/-!
# DangerfileRunner

A shallow embedding of `source/runner/DangerfileRunner.js` and the properties of
its four exported functions: `createDangerfileRuntimeEnvironment`,
`runDangerfileEnvironment`, `updateDangerfile` and `cleanDangerfile`.

Text is a `String`, read character by character; the two regular expressions are
literal ASCII patterns with the flags `g` and `i`, so that a replacement is a
left-to-right scan, and a character outside ASCII (one or two code units of the
JavaScript string) is never part of a match.

A value is a primitive or a reference to an object; an object has own data
properties, a prototype chain and, if it is a function of the host application,
the number under which the host knows it.  The method call of the injection
loop is a lookup on the bundle followed by a call, and the assignment to the
global object of the scope is the one of strict-mode code.  The libraries and
the process the runner calls (`jest-environment-node`, `jest-runtime`, `fs`,
`os`, `process`) are a `Host`, each of whose calls may throw, and a `World`;
every call of the runner returns an `Outcome`: what it did to the outside, the
world it leaves and its result.
-/

namespace DangerfileRunner

/-! ## Text: `cleanDangerfile` -/

/-- The `Canonicalize` operation of a regular expression with the `i` flag and
without the `u` flag, restricted to what the two patterns can observe: an ASCII
lower-case letter is mapped to its upper-case letter.  Every other character is
left alone: a character outside ASCII never canonicalizes to an ASCII one (the
engine keeps it when its upper-case form would fall below 128), so it cannot be
equal to the canonical form of a pattern character. -/
def canonicalize (c : Char) : Char :=
  if 97 ≤ c.toNat ∧ c.toNat ≤ 122 then Char.ofNat (c.toNat - 32) else c

/-- One pattern character against one input character under the `i` flag. -/
def charMatches (p c : Char) : Bool :=
  canonicalize p == canonicalize c

/-- The literal pattern matches the input at its very start. -/
def matchesAt : List Char → List Char → Bool
  | [], _ => true
  | _ :: _, [] => false
  | p :: ps, c :: cs => charMatches p c && matchesAt ps cs

/-- The scan of `String.prototype.replace` with a global regular expression made
of a non-empty literal and a replacement text without `$`: the input is read left
to right; where the pattern matches, the replacement is emitted and the scan
resumes right after the matched text (`skip` counts the characters of the match
still to be passed over); elsewhere the character is copied. -/
def replaceFrom (pat rep : List Char) : Nat → List Char → List Char
  | _, [] => []
  | skip + 1, _ :: cs => replaceFrom pat rep skip cs
  | 0, c :: cs =>
    if matchesAt pat (c :: cs) then rep ++ replaceFrom pat rep (pat.length - 1) cs
    else c :: replaceFrom pat rep 0 cs

/-- The call `contents.replace(/pat/gi, rep)`. -/
def replaceAll (pat rep : String) (contents : String) : String :=
  ⟨replaceFrom pat.data rep.data 0 contents.data⟩

/-- The function `cleanDangerfile` of the source. -/
def cleanDangerfile (contents : String) : String :=
  replaceAll "import \x7b danger" "// import \x7b danger"
    (replaceAll "import danger " "// import danger " contents)

/-! ## Values and objects, the world outside the runner -/

abbrev Path := String

/-- The address of an object; two references are the same instance when their
addresses are equal. -/
abbrev Addr := Nat

/-- A string value: its UTF-16 code units. -/
abbrev CodeUnits := List Nat

/-- The UTF-16 code units of a character: itself in the Basic Multilingual
Plane, a surrogate pair above it. -/
def utf16 (c : Char) : CodeUnits :=
  if c.toNat < 65536 then [c.toNat]
  else [55296 + (c.toNat - 65536) / 1024, 56320 + (c.toNat - 65536) % 1024]

/-- The string value written as the given text. -/
def codeUnits (s : String) : CodeUnits :=
  s.data.flatMap utf16

/-- A JavaScript value: a primitive, a reference to an object, or the built-in
function `Object.prototype.hasOwnProperty`. -/
inductive Value where
  | undefined
  | null
  | boolean (b : Bool)
  | number (n : Int)
  | string (units : CodeUnits)
  | object (ref : Addr)
  | builtinHasOwnProperty
  deriving DecidableEq

/-- A data property of an object. -/
structure Property where
  key : String
  value : Value
  enumerable : Bool
  deriving DecidableEq

/-- An object: its own properties in enumeration order, the property tables of
the objects of its prototype chain, nearest first, and, when the object is a
function of the host application, the number under which the host knows it. -/
structure JSObject where
  own : List Property
  protoChain : List (List Property)
  callable : Option Nat
  deriving DecidableEq

/-- The own property named `k`, if any. -/
def JSObject.ownProperty (o : JSObject) (k : String) : Option Property :=
  o.own.find? (fun p => p.key == k)

/-- The test `HasOwnProperty(o, k)` that the built-in `hasOwnProperty` makes. -/
def JSObject.hasOwnProperty (o : JSObject) (k : String) : Bool :=
  (o.ownProperty k).isSome

/-- The property found by a lookup of `k`: the own one, else the nearest one on
the prototype chain. -/
def JSObject.lookup (o : JSObject) (k : String) : Option Property :=
  (o.own ++ o.protoChain.flatten).find? (fun p => p.key == k)

/-- The property read `o[k]`, `undefined` when there is no such property. -/
def JSObject.get (o : JSObject) (k : String) : Value :=
  match o.lookup k with
  | some p => p.value
  | none => Value.undefined

/-- The keys of a `for ... in` over the given property tables, laid end to end
from the object to the end of its prototype chain: a key is visited at most
once, at its first property, and it is yielded only if that property is
enumerable, so that a property shadows every later one of its name. -/
def JSObject.forInFrom : List Property → List String → List String
  | [], _ => []
  | p :: ps, visited =>
    if p.key ∈ visited then forInFrom ps visited
    else if p.enumerable then p.key :: forInFrom ps (p.key :: visited)
    else forInFrom ps (p.key :: visited)

/-- The keys that `for (const prop in o)` sets out to visit. -/
def JSObject.forIn (o : JSObject) : List String :=
  forInFrom (o.own ++ o.protoChain.flatten) []

/-- The heap: the object behind each reference. -/
abbrev Heap := Addr → JSObject

/-- The property table of the built-in `Object.prototype`, reduced to the one
property this program reads from it. -/
def objectPrototype : List Property :=
  [{ key := "hasOwnProperty", value := Value.builtinHasOwnProperty, enumerable := false }]

/-- The wrapper object of a value with no own property: a boolean, a number or
a built-in function. -/
def plainWrapper : JSObject :=
  { own := [], protoChain := [objectPrototype], callable := none }

/-- The wrapper object of a string primitive: one enumerable property per code
unit, named by its index, and the non-enumerable `length`. -/
def stringObject (s : CodeUnits) : JSObject :=
  { own := (s.enum.map fun iu =>
      { key := toString iu.1, value := Value.string [iu.2], enumerable := true })
      ++ [{ key := "length", value := Value.number s.length, enumerable := false }]
    protoChain := [objectPrototype]
    callable := none }

/-- The object that `for ... in`, a method call or a property read works on:
the object itself, the wrapper of a primitive (`ToObject`, with the built-in
prototypes as they are in a fresh realm), nothing for `undefined` and `null`. -/
def toObject (h : Heap) : Value → Option JSObject
  | Value.undefined => none
  | Value.null => none
  | Value.boolean _ => some plainWrapper
  | Value.number _ => some plainWrapper
  | Value.string s => some (stringObject s)
  | Value.object a => some (h a)
  | Value.builtinHasOwnProperty => some plainWrapper

/-- The conversion `ToBoolean` of a condition. -/
def toBoolean : Value → Bool
  | Value.undefined => false
  | Value.null => false
  | Value.boolean b => b
  | Value.number n => n != 0
  | Value.string s => !s.isEmpty
  | Value.object _ => true
  | Value.builtinHasOwnProperty => true

/-- An error that a call can throw. -/
inductive JSError where
  | fileSystem (code : String) (path : Path)
  | type (message : String)
  | thrown (v : Value)
  deriving DecidableEq

/-- The property read `v.k` on any value; it throws on `undefined` and `null`. -/
def getMember (h : Heap) (v : Value) (k : String) : Except JSError Value :=
  match toObject h v with
  | some o => Except.ok (o.get k)
  | none => Except.error (JSError.type "Cannot read property of undefined or null")

/-- A file of the file system. -/
structure File where
  contents : String
  readable : Bool
  writable : Bool
  deriving DecidableEq

/-- The mutable state a call works on: the files and the objects. -/
structure World where
  files : Path → Option File
  heap : Heap

/-- A binding of the global object of a scope: its value and whether an
assignment may replace it. -/
structure Binding where
  value : Value
  writable : Bool
  deriving DecidableEq

/-- The global object of an isolated scope: the binding of each name. -/
abbrev Scope := String → Option Binding

/-- The assignment `scope[k] = v` of strict-mode code: it throws on a read-only
binding, such as `NaN`, `undefined` and `Infinity` in a fresh scope. -/
def Scope.set (g : Scope) (k : String) (v : Value) : Except JSError Scope :=
  let stored : Scope := fun name => if name = k then some { value := v, writable := true } else g name
  match g k with
  | none => Except.ok stored
  | some b =>
    if b.writable then Except.ok stored
    else Except.error (JSError.type "Cannot assign to read only property")

/-- The configuration object built by `createDangerfileRuntimeEnvironment`. -/
structure Config where
  cacheDirectory : Path
  setupFiles : List Path
  name : String
  hasteDefaultPlatform : String
  moduleNameMapper : List (String × String)
  moduleFileExtensions : List String
  transform : List (String × String)
  transformIgnorePatterns : List String
  cache : Option Path
  testRegex : String
  testPathDirs : List Path
  deriving DecidableEq

/-- The options of the haste map. -/
structure HasteConfig where
  automock : Bool
  maxWorkers : Nat
  resetCache : Bool
  deriving DecidableEq

/-- The module map of a built haste map. -/
abbrev ModuleMap := List Path

/-- A resolver bound to a configuration and a module map. -/
structure Resolver where
  config : Config
  moduleMap : ModuleMap

/-- A `NodeEnvironment`: it owns the global object of the isolated scope. -/
structure Environment where
  global : Scope

/-- A `jest-runtime` instance.  `requireModule` loads and evaluates a module; it
may change files and objects, and it either returns the exports of the module or
throws, in which case the changes made before the throw remain. -/
structure Runtime where
  requireModule : Path → World → World × Except JSError Value

/-- The libraries, the process and the functions of the host application that
the runner calls into.  Each call may throw; the module-map build and a function
of the host application may also change the world. -/
structure Host where
  tmpdir : Except JSError Path
  cwd : Except JSError Path
  newNodeEnvironment : Config → Except JSError Environment
  buildHasteMap : Config → HasteConfig → World → World × Except JSError ModuleMap
  createResolver : Config → ModuleMap → Except JSError Resolver
  newRuntime : Config → Environment → Resolver → Except JSError Runtime
  callFunction : Nat → Value → String → World → World × Except JSError Value

/-- The record returned by `createDangerfileRuntimeEnvironment`. -/
structure DangerfileRuntimeEnv where
  context : Value
  environment : Environment
  runtime : Runtime

/-- What a call did to the outside, in order. -/
inductive Event where
  | scopeCreated
  | hasteMapBuilt
  | fileWritten (path : Path) (text : String)
  | moduleRequired (path : Path) (onDisk : Option String)
  deriving DecidableEq

/-- The outcome of an asynchronous call: what it did, the world it leaves, and
the value its promise resolves to or the error it rejects with. -/
structure Outcome (α : Type) where
  trace : List Event
  world : World
  result : Except JSError α

/-- The call `fs.readFileSync(path).toString()`. -/
def readFileSync (path : Path) (w : World) : Except JSError String :=
  match w.files path with
  | none => Except.error (JSError.fileSystem "ENOENT" path)
  | some f =>
    if f.readable then Except.ok f.contents else Except.error (JSError.fileSystem "EACCES" path)

/-- The world in which the file at `path` is `f` and nothing else changed. -/
def World.store (w : World) (path : Path) (f : File) : World :=
  { w with files := fun p => if p = path then some f else w.files p }

/-- The call `fs.writeFileSync(path, text)`. -/
def writeFileSync (path : Path) (text : String) (w : World) : Except JSError World :=
  match w.files path with
  | none => Except.ok (w.store path { contents := text, readable := true, writable := true })
  | some f =>
    if f.writable then Except.ok (w.store path { f with contents := text })
    else Except.error (JSError.fileSystem "EACCES" path)

/-- The text of the file at `path`, if there is one. -/
def textOnDisk (w : World) (path : Path) : Option String :=
  (w.files path).map File.contents

/-- The call `context.hasOwnProperty(prop)`: the method is looked up on the
context; the built-in one tests the own properties of the context, a function of
the host application is called, and anything else is not callable. -/
def callHasOwnProperty (host : Host) (context : Value) (prop : String) (w : World) :
    World × Except JSError Bool :=
  match getMember w.heap context "hasOwnProperty" with
  | Except.error e => (w, Except.error e)
  | Except.ok Value.builtinHasOwnProperty =>
    match toObject w.heap context with
    | some o => (w, Except.ok (o.hasOwnProperty prop))
    | none => (w, Except.error (JSError.type "Cannot convert undefined or null to object"))
  | Except.ok (Value.object f) =>
    match (w.heap f).callable with
    | some fn =>
      match host.callFunction fn context prop w with
      | (w1, Except.ok v) => (w1, Except.ok (toBoolean v))
      | (w1, Except.error e) => (w1, Except.error e)
    | none => (w, Except.error (JSError.type "context.hasOwnProperty is not a function"))
  | Except.ok _ => (w, Except.error (JSError.type "context.hasOwnProperty is not a function"))

/-- The body of the loop of `createDangerfileRuntimeEnvironment`, run for the keys
still to visit: a key whose property has been deleted since the loop started is
passed over; otherwise
`if (context.hasOwnProperty(prop)) runnerGlobal[prop] = context[prop]`. -/
def injectLoop (host : Host) (context : Value) :
    List String → World → Scope → World × Except JSError Scope
  | [], w, runnerGlobal => (w, Except.ok runnerGlobal)
  | prop :: props, w, runnerGlobal =>
    match toObject w.heap context with
    | none => (w, Except.ok runnerGlobal)
    | some o =>
      if (o.lookup prop).isSome then
        match callHasOwnProperty host context prop w with
        | (w1, Except.error e) => (w1, Except.error e)
        | (w1, Except.ok false) => injectLoop host context props w1 runnerGlobal
        | (w1, Except.ok true) =>
          match getMember w1.heap context prop with
          | Except.error e => (w1, Except.error e)
          | Except.ok v =>
            match runnerGlobal.set prop v with
            | Except.error e => (w1, Except.error e)
            | Except.ok g => injectLoop host context props w1 g
      else injectLoop host context props w runnerGlobal

/-- The loop of `createDangerfileRuntimeEnvironment` over the context,
`for (const prop in context) ...`; it does not run for `undefined` and `null`. -/
def injectGlobals (host : Host) (context : Value) (w : World) (runnerGlobal : Scope) :
    World × Except JSError Scope :=
  match toObject w.heap context with
  | none => (w, Except.ok runnerGlobal)
  | some o => injectLoop host context o.forIn w runnerGlobal

/-- The configuration of the source, given the results of `os.tmpdir()` and
`process.cwd()`. -/
def dangerConfig (tmpdir cwd : Path) : Config :=
  { cacheDirectory := tmpdir
    setupFiles := []
    name := "danger"
    hasteDefaultPlatform := "danger-js"
    moduleNameMapper := []
    moduleFileExtensions := ["js"]
    transform := [("js$", "babel-jest")]
    transformIgnorePatterns := []
    cache := none
    testRegex := ""
    testPathDirs := [cwd] }

/-- The options `hasteConfig` of the source. -/
def dangerHasteConfig : HasteConfig :=
  { automock := false, maxWorkers := 1, resetCache := false }

/-- The function `createDangerfileRuntimeEnvironment` of the source. -/
def createDangerfileRuntimeEnvironment (host : Host) (dangerfileContext : Value) (w : World) :
    Outcome DangerfileRuntimeEnv :=
  match host.tmpdir with
  | Except.error e => { trace := [], world := w, result := Except.error e }
  | Except.ok tmpdir =>
  match host.cwd with
  | Except.error e => { trace := [], world := w, result := Except.error e }
  | Except.ok cwd =>
  let config := dangerConfig tmpdir cwd
  match host.newNodeEnvironment config with
  | Except.error e => { trace := [], world := w, result := Except.error e }
  | Except.ok environment =>
  let runnerGlobal := environment.global
  let context := dangerfileContext
  match injectGlobals host context w runnerGlobal with
  | (w1, Except.error e) => { trace := [Event.scopeCreated], world := w1, result := Except.error e }
  | (w1, Except.ok injected) =>
  let environment : Environment := { global := injected }
  let hasteConfig := dangerHasteConfig
  match host.buildHasteMap config hasteConfig w1 with
  | (w2, Except.error e) => { trace := [Event.scopeCreated], world := w2, result := Except.error e }
  | (w2, Except.ok moduleMap) =>
  match host.createResolver config moduleMap with
  | Except.error e =>
    { trace := [Event.scopeCreated, Event.hasteMapBuilt], world := w2, result := Except.error e }
  | Except.ok resolver =>
  match host.newRuntime config environment resolver with
  | Except.error e =>
    { trace := [Event.scopeCreated, Event.hasteMapBuilt], world := w2, result := Except.error e }
  | Except.ok runtime =>
    { trace := [Event.scopeCreated, Event.hasteMapBuilt], world := w2,
      result := Except.ok { context := context, environment := environment, runtime := runtime } }

/-- The function `updateDangerfile` of the source. -/
def updateDangerfile (filename : Path) (w : World) : Outcome Unit :=
  match readFileSync filename w with
  | Except.error e => { trace := [], world := w, result := Except.error e }
  | Except.ok contents =>
    match writeFileSync filename (cleanDangerfile contents) w with
    | Except.error e => { trace := [], world := w, result := Except.error e }
    | Except.ok w1 =>
      { trace := [Event.fileWritten filename (cleanDangerfile contents)], world := w1,
        result := Except.ok () }

/-- The function `runDangerfileEnvironment` of the source. -/
def runDangerfileEnvironment (filename : Path) (environment : DangerfileRuntimeEnv) (w : World) :
    Outcome Value :=
  let runtime := environment.runtime
  let updated := updateDangerfile filename w
  match updated.result with
  | Except.error e => { trace := updated.trace, world := updated.world, result := Except.error e }
  | Except.ok _ =>
    let trace := updated.trace ++ [Event.moduleRequired filename (textOnDisk updated.world filename)]
    match runtime.requireModule filename updated.world with
    | (w2, Except.error e) => { trace := trace, world := w2, result := Except.error e }
    | (w2, Except.ok _) =>
      { trace := trace, world := w2, result := getMember w2.heap environment.context "results" }

/-- The loop when the method is the built-in one: no function is called, and the
objects do not change. -/
def injectOwn (o : JSObject) : List String → Scope → Except JSError Scope
  | [], g => Except.ok g
  | prop :: props, g =>
    if o.hasOwnProperty prop then
      match g.set prop (o.get prop) with
      | Except.error e => Except.error e
      | Except.ok g1 => injectOwn o props g1
    else injectOwn o props g

/-- The number written in decimal by the given characters. -/
def readDecimal (cs : List Char) : Nat :=
  cs.foldl (fun n c => n * 10 + (c.toNat - 48)) 0

/-- The value is `undefined`, `null`, a boolean, a number or a string. -/
def Value.isPrimitive : Value → Bool
  | Value.object _ => false
  | Value.builtinHasOwnProperty => false
  | _ => true

/-! ## Vocabulary of the properties of `cleanDangerfile` -/

/-- Some position of the text starts a match of the pattern. -/
def occursIn (pat : List Char) : List Char → Bool
  | [] => matchesAt pat []
  | c :: cs => matchesAt pat (c :: cs) || occursIn pat cs

/-- A pattern character position at which `pat` and `txt` disagree under the `i` flag. -/
def clash : List Char → List Char → Bool
  | p :: ps, q :: qs => !charMatches p q || clash ps qs
  | _, _ => false

/-- The pattern `p` cannot match at any position that starts inside a text spelled like `q`. -/
def noMatchInside (p q : List Char) : Bool :=
  (List.range q.length).all (fun k => clash p (q.drop k))

/-- The pattern of the first replacement, the default import. -/
def patDefault : List Char := "import danger ".data

/-- The replacement text of the first replacement. -/
def repDefault : List Char := "// import danger ".data

/-- The pattern of the second replacement, the named import. -/
def patNamed : List Char := "import \x7b danger".data

/-- The replacement text of the second replacement. -/
def repNamed : List Char := "// import \x7b danger".data

/-- The two replacements of `cleanDangerfile` on the characters of the text. -/
def cleanChars (s : List Char) : List Char :=
  replaceFrom patNamed repNamed 0 (replaceFrom patDefault repDefault 0 s)

/-- The three characters `// `. -/
def commentMark : List Char := "// ".data

/-- One of the two import patterns matches at the start of the text. -/
def importAt (s : List Char) : Bool :=
  matchesAt patDefault s || matchesAt patNamed s

/-- Some position of the text starts one of the two import patterns. -/
def importOccurs (s : List Char) : Bool :=
  occursIn patDefault s || occursIn patNamed s

/-- The text with `// ` put in front of every position where an import pattern
matches, every character of the text itself kept. -/
def insertComments : List Char → List Char
  | [] => []
  | c :: cs =>
    if importAt (c :: cs) then commentMark ++ c :: insertComments cs
    else c :: insertComments cs

/-- The text in which every matched occurrence of an import pattern is spelled
as the pattern itself, in lower case; `pending` is what is left to write of the
occurrence being respelled. -/
def respellFrom : List Char → List Char → List Char
  | _, [] => []
  | pending, c :: cs =>
    let todo :=
      if matchesAt patDefault (c :: cs) then patDefault
      else if matchesAt patNamed (c :: cs) then patNamed
      else pending
    match todo with
    | [] => c :: respellFrom [] cs
    | p :: ps => p :: respellFrom ps cs

/-- The text contains an occurrence of `pat`, letter case of ASCII letters
ignored. -/
def containsIgnoreCase (text pat : String) : Bool :=
  occursIn pat.data text.data

/-- The text starts with an occurrence of `pat`, letter case of ASCII letters
ignored. -/
def startsWithIgnoreCase (text pat : String) : Bool :=
  matchesAt pat.data text.data

/-- The text with `// ` inserted immediately before each match of one of the two
patterns and no other character changed. -/
def commentedInPlace (s : String) : String :=
  ⟨insertComments s.data⟩

/-- The text in which each match of one of the two patterns is written in lower
case, as the pattern spells it. -/
def matchesLowered (s : String) : String :=
  ⟨respellFrom [] s.data⟩

/-! ## Sample data -/

/-- A capability bundle: `results` and `warn` are own enumerable, `secret` is own
but not enumerable, and `inherited` comes from the prototype. -/
def sampleBundle : JSObject :=
  { own := [
      { key := "results", value := Value.object 2, enumerable := true },
      { key := "warn", value := Value.object 3, enumerable := true },
      { key := "secret", value := Value.number 7, enumerable := false }]
    protoChain := [[
      { key := "inherited", value := Value.number 1, enumerable := true },
      { key := "secret", value := Value.number 8, enumerable := true }], objectPrototype]
    callable := none }

/-- The bundle `{hasOwnProperty: f, warn: g}` whose `f` is the function 0 of the
host application. -/
def overridingBundle : JSObject :=
  { own := [
      { key := "hasOwnProperty", value := Value.object 5, enumerable := true },
      { key := "warn", value := Value.object 3, enumerable := true }]
    protoChain := [objectPrototype]
    callable := none }

/-- The bundle `{hasOwnProperty: 1}`. -/
def brokenBundle : JSObject :=
  { own := [{ key := "hasOwnProperty", value := Value.number 1, enumerable := true }]
    protoChain := [objectPrototype]
    callable := none }

/-- The bundle `{NaN: 1}`. -/
def nanBundle : JSObject :=
  { own := [{ key := "NaN", value := Value.number 1, enumerable := true }]
    protoChain := [objectPrototype]
    callable := none }

/-- A world with one Dangerfile, the sample bundle at address 1 and the three
other bundles at 4, 6 and 7; the object at 5 is the function 0 of the host. -/
def sampleWorld : World :=
  { files := fun p =>
      if p = "dangerfile.js" then
        some { contents := "import danger from 'danger'\nwarn(1)", readable := true, writable := true }
      else none
    heap := fun a =>
      if a = 1 then sampleBundle
      else if a = 4 then overridingBundle
      else if a = 5 then { own := [], protoChain := [objectPrototype], callable := some 0 }
      else if a = 6 then brokenBundle
      else if a = 7 then nanBundle
      else { own := [], protoChain := [objectPrototype], callable := none } }

/-- A loader that evaluates nothing and exports `undefined`. -/
def idleRuntime : Runtime :=
  { requireModule := fun _ w => (w, Except.ok Value.undefined) }

/-- A loader whose module throws the string `boom`. -/
def throwingRuntime : Runtime :=
  { requireModule := fun _ w => (w, Except.error (JSError.thrown (Value.string (codeUnits "boom")))) }

/-- A fresh scope: `console`, and the read-only `NaN`, `undefined` and
`Infinity`. -/
def freshScope : Scope := fun name =>
  if name = "console" then some { value := Value.object 9, writable := true }
  else if name = "NaN" ∨ name = "undefined" ∨ name = "Infinity" then
    some { value := Value.undefined, writable := false }
  else none

/-- A host all of whose calls succeed; its function 0 returns `false`. -/
def sampleHost : Host :=
  { tmpdir := Except.ok "/tmp"
    cwd := Except.ok "/repo"
    newNodeEnvironment := fun _ => Except.ok { global := freshScope }
    buildHasteMap := fun _ _ w => (w, Except.ok [])
    createResolver := fun c m => Except.ok { config := c, moduleMap := m }
    newRuntime := fun _ _ _ => Except.ok idleRuntime
    callFunction := fun _ _ _ w => (w, Except.ok (Value.boolean false)) }

/-- A host whose `process.cwd()` throws. -/
def lostHost : Host :=
  { sampleHost with cwd := Except.error (JSError.fileSystem "ENOENT" "uv_cwd") }

/-- The environment built by the sample host for the sample bundle. -/
def sampleEnv : DangerfileRuntimeEnv :=
  { context := Value.object 1
    environment :=
      { global := fun name =>
          if name = "warn" then some { value := Value.object 3, writable := true }
          else if name = "results" then some { value := Value.object 2, writable := true }
          else freshScope name }
    runtime := idleRuntime }

/-- The environment built by the sample host for `null`. -/
def sampleNullEnv : DangerfileRuntimeEnv :=
  { context := Value.null
    environment := { global := freshScope }
    runtime := idleRuntime }

/-- The environment built by the sample host for the string of the three code
units of `a` followed by a character outside the Basic Multilingual Plane. -/
def sampleStringEnv : DangerfileRuntimeEnv :=
  { context := Value.string [97, 55357, 56832]
    environment :=
      { global := fun name =>
          if name = "2" then some { value := Value.string [56832], writable := true }
          else if name = "1" then some { value := Value.string [55357], writable := true }
          else if name = "0" then some { value := Value.string [97], writable := true }
          else freshScope name }
    runtime := idleRuntime }

/-! ## The scan of a replacement -/

theorem replaceFrom_skip (pat rep : List Char) (k : Nat) (s : List Char) :
    replaceFrom pat rep k s = replaceFrom pat rep 0 (s.drop k) := by
  induction s generalizing k with
  | nil => cases k <;> simp [replaceFrom]
  | cons c cs ih =>
    cases k with
    | zero => simp
    | succ k => simp [replaceFrom, ih k]

theorem replaceFrom_hit (pat rep : List Char) (s : List Char) (hp : pat ≠ [])
    (h : matchesAt pat s = true) :
    replaceFrom pat rep 0 s = rep ++ replaceFrom pat rep 0 (s.drop pat.length) := by
  cases s with
  | nil => cases pat <;> simp_all [matchesAt]
  | cons c cs =>
    cases pat with
    | nil => exact absurd rfl hp
    | cons p ps =>
      rw [replaceFrom, if_pos h, replaceFrom_skip]
      simp

theorem replaceFrom_miss (pat rep : List Char) (c : Char) (cs : List Char)
    (h : matchesAt pat (c :: cs) = false) :
    replaceFrom pat rep 0 (c :: cs) = c :: replaceFrom pat rep 0 cs := by
  rw [replaceFrom, if_neg (by simp [h])]

theorem matchesAt_length {p s : List Char} (h : matchesAt p s = true) : p.length ≤ s.length := by
  induction p generalizing s with
  | nil => simp
  | cons x xs ih =>
    cases s with
    | nil => simp [matchesAt] at h
    | cons c cs =>
      simp only [matchesAt, Bool.and_eq_true] at h
      simpa using ih h.2

theorem matchesAt_append {p s : List Char} (t : List Char) (h : matchesAt p s = true) :
    matchesAt p (s ++ t) = true := by
  induction p generalizing s with
  | nil => simp [matchesAt]
  | cons x xs ih =>
    cases s with
    | nil => simp [matchesAt] at h
    | cons c cs =>
      simp only [matchesAt, Bool.and_eq_true, List.cons_append] at h ⊢
      exact ⟨h.1, ih h.2⟩

/-- Matching only looks at the canonical forms of the text. -/
theorem matchesAt_congr {p s t : List Char} (h : s.map canonicalize = t.map canonicalize) :
    matchesAt p s = matchesAt p t := by
  induction p generalizing s t with
  | nil => simp [matchesAt]
  | cons x xs ih =>
    cases s with
    | nil =>
      cases t with
      | nil => rfl
      | cons d ds => simp at h
    | cons c cs =>
      cases t with
      | nil => simp at h
      | cons d ds =>
        simp only [List.map_cons, List.cons.injEq] at h
        simp only [matchesAt, charMatches, h.1, ih h.2]

theorem clash_no_match {p q : List Char} (h : clash p q = true) (m v : List Char)
    (hm : m.map canonicalize = q.map canonicalize) : matchesAt p (m ++ v) = false := by
  induction p generalizing q m with
  | nil => simp [clash] at h
  | cons x xs ih =>
    cases q with
    | nil => simp [clash] at h
    | cons y ys =>
      cases m with
      | nil => simp at hm
      | cons c cs =>
        simp only [List.map_cons, List.cons.injEq] at hm
        simp only [clash, Bool.or_eq_true, Bool.not_eq_true'] at h
        simp only [List.cons_append, matchesAt, Bool.and_eq_false_iff]
        rcases h with h | h
        · left
          simpa [charMatches, hm.1] using h
        · right
          exact ih h cs hm.2

theorem matchesAt_take {p s : List Char} (h : matchesAt p s = true) :
    (s.take p.length).map canonicalize = p.map canonicalize := by
  induction p generalizing s with
  | nil => simp
  | cons x xs ih =>
    cases s with
    | nil => simp [matchesAt] at h
    | cons c cs =>
      simp only [matchesAt, Bool.and_eq_true, charMatches, beq_iff_eq] at h
      simp [ih h.2, h.1]

theorem replaceFrom_pass (pat rep : List Char) (m v : List Char)
    (h : ∀ k, k < m.length → matchesAt pat (m.drop k ++ v) = false) :
    replaceFrom pat rep 0 (m ++ v) = m ++ replaceFrom pat rep 0 v := by
  induction m with
  | nil => simp
  | cons c cs ih =>
    have h0 := h 0 (by simp)
    simp only [List.drop_zero, List.cons_append] at h0
    have ih2 := ih (fun k hk => by simpa using h (k + 1) (by simpa using hk))
    rw [List.cons_append, replaceFrom_miss _ _ _ _ h0, ih2, List.cons_append]

theorem noMatchInside_spec {p q : List Char} (h : noMatchInside p q = true) (m v : List Char)
    (hm : m.map canonicalize = q.map canonicalize) (k : Nat) (hk : k < m.length) :
    matchesAt p (m.drop k ++ v) = false := by
  have hlen : m.length = q.length := by simpa using congrArg List.length hm
  have hc : clash p (q.drop k) = true := by
    simp only [noMatchInside, List.all_eq_true, List.mem_range] at h
    exact h k (hlen ▸ hk)
  exact clash_no_match hc _ _ (by rw [List.map_drop, List.map_drop, hm])

theorem replaceFrom_pass_of_noMatchInside (pat rep : List Char) {q : List Char}
    (h : noMatchInside pat q = true) (m v : List Char)
    (hm : m.map canonicalize = q.map canonicalize) :
    replaceFrom pat rep 0 (m ++ v) = m ++ replaceFrom pat rep 0 v :=
  replaceFrom_pass pat rep m v (noMatchInside_spec h m v hm)

/-- A match found in the output of a replacement whose text starts with `/` was
already a match in the input, for a pattern without `/`. -/
theorem matchesAt_of_replaceFrom (pat rep q : List Char)
    (hq : ∀ x ∈ q, charMatches x '/' = false) (t : List Char)
    (h : matchesAt q (replaceFrom pat ('/' :: rep) 0 t) = true) : matchesAt q t = true := by
  induction t generalizing q with
  | nil => simpa [replaceFrom] using h
  | cons c cs ih =>
    cases q with
    | nil => simp [matchesAt]
    | cons x xs =>
      rw [replaceFrom] at h
      split at h
      · simp [matchesAt, hq x (by simp)] at h
      · simp only [matchesAt, Bool.and_eq_true] at h ⊢
        exact ⟨h.1, ih xs (fun y hy => hq y (by simp [hy])) h.2⟩

theorem cleanDangerfile_data (s : String) : (cleanDangerfile s).data = cleanChars s.data := rfl

theorem cleanChars_nil : cleanChars [] = [] := rfl

theorem no_slash_default : ∀ x ∈ patDefault, charMatches x '/' = false := by decide
theorem no_slash_named : ∀ x ∈ patNamed, charMatches x '/' = false := by decide

/-- A match found in the cleaned text was a match in the original text. -/
theorem matchesAt_of_cleanChars (q : List Char) (hq : ∀ x ∈ q, charMatches x '/' = false)
    (s : List Char) (h : matchesAt q (cleanChars s) = true) : matchesAt q s = true :=
  matchesAt_of_replaceFrom patDefault _ q hq s
    (matchesAt_of_replaceFrom patNamed _ q hq _ h)

theorem cleanChars_default (s : List Char) (h : matchesAt patDefault s = true) :
    cleanChars s = repDefault ++ cleanChars (s.drop 14) := by
  unfold cleanChars
  rw [replaceFrom_hit patDefault repDefault s (by decide) h]
  exact replaceFrom_pass_of_noMatchInside patNamed repNamed (q := repDefault) (by decide) _ _ rfl

theorem cleanChars_named (s : List Char) (h : matchesAt patNamed s = true) :
    cleanChars s = repNamed ++ cleanChars (s.drop 15) := by
  unfold cleanChars
  have hs : s = s.take 15 ++ s.drop 15 := (List.take_append_drop 15 s).symm
  have hm : (s.take 15).map canonicalize = patNamed.map canonicalize := matchesAt_take h
  have h1 : replaceFrom patDefault repDefault 0 s
      = s.take 15 ++ replaceFrom patDefault repDefault 0 (s.drop 15) := by
    conv_lhs => rw [hs]
    exact replaceFrom_pass_of_noMatchInside patDefault repDefault (q := patNamed) (by decide) _ _ hm
  rw [h1]
  have h2 : matchesAt patNamed (s.take 15 ++ replaceFrom patDefault repDefault 0 (s.drop 15)) = true := by
    apply matchesAt_append
    rw [matchesAt_congr hm]
    decide
  rw [replaceFrom_hit patNamed repNamed _ (by decide) h2]
  congr 2
  have hl : (s.take 15).length = 15 := by
    have := matchesAt_length h
    simp only [List.length_take]
    have : patNamed.length = 15 := rfl
    omega
  show List.drop 15 _ = _
  rw [List.drop_append_eq_append_drop, hl]
  simp [List.drop_eq_nil_of_le, hl]

theorem cleanChars_copy (c : Char) (cs : List Char)
    (h1 : matchesAt patDefault (c :: cs) = false) (h2 : matchesAt patNamed (c :: cs) = false) :
    cleanChars (c :: cs) = c :: cleanChars cs := by
  have key : matchesAt patNamed (replaceFrom patDefault repDefault 0 (c :: cs)) = false := by
    rw [Bool.eq_false_iff]
    intro hc
    have := matchesAt_of_replaceFrom patDefault _ patNamed no_slash_named (c :: cs) hc
    rw [h2] at this
    exact Bool.noConfusion this
  unfold cleanChars
  rw [replaceFrom_miss _ _ _ _ h1] at key ⊢
  rw [replaceFrom_miss _ _ _ _ key]

/-- Case analysis on how `cleanChars` treats the start of the text. -/
theorem cleanChars_cases {P : List Char → Prop} (nil : P [])
    (default : ∀ s, matchesAt patDefault s = true → P (s.drop 14) → P s)
    (named : ∀ s, matchesAt patNamed s = true → P (s.drop 15) → P s)
    (copy : ∀ c cs, matchesAt patDefault (c :: cs) = false →
      matchesAt patNamed (c :: cs) = false → P cs → P (c :: cs)) :
    ∀ s, P s := by
  suffices H : ∀ n s, s.length ≤ n → P s from fun s => H s.length s (Nat.le_refl _)
  intro n
  induction n with
  | zero =>
    intro s hs
    cases s with
    | nil => exact nil
    | cons c cs => simp at hs
  | succ n ih =>
    intro s hs
    cases s with
    | nil => exact nil
    | cons c cs =>
      have hl : cs.length ≤ n := by simpa using hs
      by_cases h1 : matchesAt patDefault (c :: cs) = true
      · exact default _ h1 (ih _ (by simp; omega))
      · by_cases h2 : matchesAt patNamed (c :: cs) = true
        · exact named _ h2 (ih _ (by simp; omega))
        · exact copy c cs (by simpa using h1) (by simpa using h2) (ih _ hl)

theorem occursIn_of_matchesAt {p s : List Char} (h : matchesAt p s = true) : occursIn p s = true := by
  cases s with
  | nil => simpa [occursIn] using h
  | cons c cs => simp [occursIn, h]

theorem cleanChars_of_no_occurrence (s : List Char) (h1 : occursIn patDefault s = false)
    (h2 : occursIn patNamed s = false) : cleanChars s = s := by
  induction s with
  | nil => rfl
  | cons c cs ih =>
    simp only [occursIn, Bool.or_eq_false_iff] at h1 h2
    rw [cleanChars_copy c cs h1.1 h2.1, ih h1.2 h2.2]

theorem matchesAt_before_newline {p : List Char} (hp : ∀ x ∈ p, charMatches x '\n' = false)
    (a b : List Char) : matchesAt p (a ++ '\n' :: b) = matchesAt p a := by
  induction p generalizing a with
  | nil => simp [matchesAt]
  | cons x xs ih =>
    cases a with
    | nil => simp [matchesAt, hp x (by simp)]
    | cons c cs =>
      have := ih (fun y hy => hp y (by simp [hy])) cs
      show (charMatches x c && matchesAt xs (cs ++ '\n' :: b)) = (charMatches x c && matchesAt xs cs)
      rw [this]

theorem no_newline_default : ∀ x ∈ patDefault, charMatches x '\n' = false := by decide
theorem no_newline_named : ∀ x ∈ patNamed, charMatches x '\n' = false := by decide

theorem cleanChars_line (a b : List Char) :
    cleanChars (a ++ '\n' :: b) = cleanChars a ++ '\n' :: cleanChars b := by
  revert a
  apply cleanChars_cases
  · have h1 := matchesAt_before_newline no_newline_default [] b
    have h2 := matchesAt_before_newline no_newline_named [] b
    simp only [List.nil_append] at h1 h2
    rw [List.nil_append, cleanChars_copy _ _ (h1.trans (by decide)) (h2.trans (by decide))]
    rfl
  · intro s h ih
    have hl : 14 ≤ s.length := matchesAt_length h
    rw [cleanChars_default _ (matchesAt_append _ h), cleanChars_default _ h,
      List.drop_append_of_le_length hl, ih, List.append_assoc]
  · intro s h ih
    have hl : 15 ≤ s.length := matchesAt_length h
    rw [cleanChars_named _ (matchesAt_append _ h), cleanChars_named _ h,
      List.drop_append_of_le_length hl, ih, List.append_assoc]
  · intro c cs h1 h2 ih
    have g1 := (matchesAt_before_newline no_newline_default (c :: cs) b).trans h1
    have g2 := (matchesAt_before_newline no_newline_named (c :: cs) b).trans h2
    rw [List.cons_append] at g1 g2 ⊢
    rw [cleanChars_copy _ _ g1 g2, cleanChars_copy _ _ h1 h2, ih, List.cons_append]

theorem not_mem_of_map_canonicalize {m q : List Char} (x : Char)
    (hq : ∀ y ∈ q, charMatches y x = false)
    (hm : m.map canonicalize = q.map canonicalize) : x ∉ m := by
  induction m generalizing q with
  | nil => simp
  | cons c cs ih =>
    cases q with
    | nil => simp at hm
    | cons y ys =>
      simp only [List.map_cons, List.cons.injEq] at hm
      simp only [List.mem_cons, not_or]
      refine ⟨?_, ih (fun z hz => hq z (by simp [hz])) hm.2⟩
      rintro rfl
      have := hq y (by simp)
      simp [charMatches, hm.1] at this

theorem count_newline_cleanChars (s : List Char) :
    (cleanChars s).count '\n' = s.count '\n' := by
  revert s
  apply cleanChars_cases
  · rfl
  · intro s h ih
    have h0 : (s.take 14).count '\n' = 0 :=
      List.count_eq_zero.2 (not_mem_of_map_canonicalize _ no_newline_default (matchesAt_take h))
    have hr : repDefault.count '\n' = 0 := by decide
    rw [cleanChars_default _ h, List.count_append, ih, hr]
    conv_rhs => rw [← List.take_append_drop 14 s, List.count_append, h0]
  · intro s h ih
    have h0 : (s.take 15).count '\n' = 0 :=
      List.count_eq_zero.2 (not_mem_of_map_canonicalize _ no_newline_named (matchesAt_take h))
    have hr : repNamed.count '\n' = 0 := by decide
    rw [cleanChars_named _ h, List.count_append, ih, hr]
    conv_rhs => rw [← List.take_append_drop 15 s, List.count_append, h0]
  · intro c cs h1 h2 ih
    rw [cleanChars_copy _ _ h1 h2, List.count_cons, List.count_cons, ih]

/-- Inside a replacement text an import pattern can only start right after its `// `. -/
theorem importAt_inside_rep (rep : List Char)
    (hrep : ∀ k, k < rep.length → k = 3 ∨
      (clash patDefault (rep.drop k) = true ∧ clash patNamed (rep.drop k) = true))
    (h3 : rep.take 3 = commentMark)
    (u t x : List Char) (hsplit : rep = u ++ t) (ht : t ≠ [])
    (hx : importAt (t ++ x) = true) : u = commentMark := by
  have hk : u.length < rep.length := by
    rw [hsplit, List.length_append]
    have : 0 < t.length := List.length_pos.2 ht
    omega
  have hu : u = rep.take u.length := by rw [hsplit]; simp
  have hd : t = rep.drop u.length := by rw [hsplit]; simp
  rcases hrep _ hk with h | ⟨c1, c2⟩
  · rw [hu, h, h3]
  · rw [hd] at hx
    have e1 := clash_no_match c1 (rep.drop u.length) x rfl
    have e2 := clash_no_match c2 (rep.drop u.length) x rfl
    simp [importAt, e1, e2] at hx

theorem importAt_of_cleanChars (s : List Char) (h : importAt (cleanChars s) = true) :
    importAt s = true := by
  simp only [importAt, Bool.or_eq_true] at h ⊢
  rcases h with h | h
  · exact Or.inl (matchesAt_of_cleanChars _ no_slash_default s h)
  · exact Or.inr (matchesAt_of_cleanChars _ no_slash_named s h)

theorem importAt_nil : importAt [] = false := by decide

theorem cleanChars_commented (s : List Char) :
    ∀ u w, cleanChars s = u ++ w → importAt w = true → ∃ v, u = v ++ commentMark := by
  revert s
  apply cleanChars_cases
  · intro u w h hw
    have : w = [] := by
      have := congrArg List.length h
      simp only [cleanChars_nil, List.length_nil, List.length_append] at this
      exact List.length_eq_zero.1 (by omega)
    rw [this, importAt_nil] at hw
    exact Bool.noConfusion hw
  · intro s h ih u w e hw
    rw [cleanChars_default _ h, List.append_eq_append_iff] at e
    rcases e with ⟨a, rfl, ha⟩ | ⟨t, ht, rfl⟩
    · obtain ⟨v, rfl⟩ := ih a w ha hw
      exact ⟨repDefault ++ v, by simp⟩
    · by_cases hn : t = []
      · subst hn
        obtain ⟨v, hv⟩ := ih [] _ rfl (by simpa using hw)
        have := congrArg List.length hv
        simp [commentMark] at this
      · exact ⟨[], by
          simpa using importAt_inside_rep repDefault (by decide) (by decide) u t _ ht hn hw⟩
  · intro s h ih u w e hw
    rw [cleanChars_named _ h, List.append_eq_append_iff] at e
    rcases e with ⟨a, rfl, ha⟩ | ⟨t, ht, rfl⟩
    · obtain ⟨v, rfl⟩ := ih a w ha hw
      exact ⟨repNamed ++ v, by simp⟩
    · by_cases hn : t = []
      · subst hn
        obtain ⟨v, hv⟩ := ih [] _ rfl (by simpa using hw)
        have := congrArg List.length hv
        simp [commentMark] at this
      · exact ⟨[], by
          simpa using importAt_inside_rep repNamed (by decide) (by decide) u t _ ht hn hw⟩
  · intro c cs h1 h2 ih u w e hw
    rw [cleanChars_copy _ _ h1 h2] at e
    cases u with
    | nil =>
      rw [List.nil_append] at e
      rw [← e, ← cleanChars_copy _ _ h1 h2] at hw
      have := importAt_of_cleanChars _ hw
      simp [importAt, h1, h2] at this
    | cons d ds =>
      simp only [List.cons_append, List.cons.injEq] at e
      obtain ⟨v, rfl⟩ := ih ds w e.2 hw
      exact ⟨d :: v, by simp⟩

theorem occursIn_append_left (p a b : List Char) (h : occursIn p a = true) :
    occursIn p (a ++ b) = true := by
  induction a with
  | nil =>
    have : matchesAt p [] = true := by simpa [occursIn] using h
    exact occursIn_of_matchesAt (by simpa using matchesAt_append b this)
  | cons c cs ih =>
    simp only [occursIn, Bool.or_eq_true, List.cons_append] at h ⊢
    rcases h with h | h
    · exact Or.inl (matchesAt_append b h)
    · exact Or.inr (ih h)

theorem importOccurs_cleanChars (s : List Char) (h : importOccurs s = true) :
    importOccurs (cleanChars s) = true := by
  revert s
  apply cleanChars_cases
  · intro h; exact h
  · intro s hm _ _
    rw [cleanChars_default _ hm]
    simp [importOccurs, occursIn_append_left patDefault repDefault _ (by decide)]
  · intro s hm _ _
    rw [cleanChars_named _ hm]
    simp [importOccurs, occursIn_append_left patNamed repNamed _ (by decide)]
  · intro c cs h1 h2 ih h
    rw [cleanChars_copy _ _ h1 h2]
    simp only [importOccurs, occursIn, h1, h2, Bool.false_or, Bool.or_eq_true] at h ⊢
    have := ih (by simpa [importOccurs] using h)
    simp only [importOccurs, Bool.or_eq_true] at this
    rcases this with t | t
    · exact Or.inl (by simp [t])
    · exact Or.inr (by simp [t])

theorem length_cleanChars (s : List Char) :
    s.length ≤ (cleanChars s).length ∧
      (importOccurs s = true → s.length < (cleanChars s).length) := by
  revert s
  apply cleanChars_cases
  · exact ⟨Nat.le_refl _, fun h => Bool.noConfusion h⟩
  · intro s hm ih
    have hl : 14 ≤ s.length := matchesAt_length hm
    have hr : repDefault.length = 17 := rfl
    have := ih.1
    rw [cleanChars_default _ hm, List.length_append, hr]
    rw [List.length_drop] at this
    exact ⟨by omega, fun _ => by omega⟩
  · intro s hm ih
    have hl : 15 ≤ s.length := matchesAt_length hm
    have hr : repNamed.length = 18 := rfl
    have := ih.1
    rw [cleanChars_named _ hm, List.length_append, hr]
    rw [List.length_drop] at this
    exact ⟨by omega, fun _ => by omega⟩
  · intro c cs h1 h2 ih
    rw [cleanChars_copy _ _ h1 h2]
    refine ⟨by simpa using ih.1, fun h => ?_⟩
    have : importOccurs cs = true := by
      simpa [importOccurs, occursIn, h1, h2] using h
    simpa using ih.2 this

theorem cleanChars_twice_iff (s : List Char) :
    cleanChars (cleanChars s) = cleanChars s ↔ importOccurs s = false := by
  constructor
  · intro h
    rw [Bool.eq_false_iff]
    intro hs
    have := (length_cleanChars (cleanChars s)).2 (importOccurs_cleanChars s hs)
    rw [h] at this
    exact Nat.lt_irrefl _ this
  · intro h
    simp only [importOccurs, Bool.or_eq_false_iff] at h
    rw [cleanChars_of_no_occurrence s h.1 h.2, cleanChars_of_no_occurrence s h.1 h.2]

theorem respellFrom_copy (c : Char) (cs : List Char) (h : importAt (c :: cs) = false) :
    respellFrom [] (c :: cs) = c :: respellFrom [] cs := by
  simp only [importAt, Bool.or_eq_false_iff] at h
  simp [respellFrom, h.1, h.2]

theorem respellFrom_pending (pending m v : List Char) (hl : pending.length = m.length)
    (h : ∀ k, k < m.length → importAt (m.drop k ++ v) = false) :
    respellFrom pending (m ++ v) = pending ++ respellFrom [] v := by
  induction m generalizing pending with
  | nil =>
    have : pending = [] := List.length_eq_zero.1 (by simpa using hl)
    simp [this]
  | cons c cs ih =>
    cases pending with
    | nil => simp at hl
    | cons p ps =>
      have h0 := h 0 (by simp)
      simp only [List.drop_zero, List.cons_append, importAt, Bool.or_eq_false_iff] at h0
      have ih2 := ih ps (by simpa using hl)
        (fun k hk => by simpa using h (k + 1) (by simpa using hk))
      simp [respellFrom, h0.1, h0.2, ih2]

theorem importAt_inside {q : List Char} (h1 : noMatchInside patDefault q = true)
    (h2 : noMatchInside patNamed q = true) (m v : List Char)
    (hm : m.map canonicalize = q.map canonicalize) (k : Nat) (hk : k < m.length) :
    importAt (m.drop k ++ v) = false := by
  simp [importAt, noMatchInside_spec h1 m v hm k hk, noMatchInside_spec h2 m v hm k hk]

theorem map_tail_take {p s : List Char} (h : matchesAt p s = true) :
    ((s.take p.length).tail).map canonicalize = p.tail.map canonicalize := by
  rw [List.map_tail, List.map_tail, matchesAt_take h]

theorem respellFrom_default (s : List Char) (h : matchesAt patDefault s = true) :
    respellFrom [] s = patDefault ++ respellFrom [] (s.drop 14) := by
  have hm := matchesAt_take h
  have hl : 14 ≤ s.length := matchesAt_length h
  cases s with
  | nil => simp at hl
  | cons c cs =>
    have hcs : cs = cs.take 13 ++ cs.drop 13 := (List.take_append_drop 13 cs).symm
    have hm2 : (cs.take 13).map canonicalize = patDefault.tail.map canonicalize := by
      simpa using map_tail_take h
    have hlen : (cs.take 13).length = 13 := by
      simp only [List.length_cons] at hl
      simp only [List.length_take]; omega
    have key := respellFrom_pending patDefault.tail (cs.take 13) (cs.drop 13)
      (by rw [hlen]; rfl)
      (importAt_inside (q := patDefault.tail) (by decide) (by decide) _ _ hm2)
    rw [← hcs] at key
    simp only [respellFrom, h, if_true]
    show _ :: respellFrom patDefault.tail cs = _
    rw [key]
    rfl

theorem not_default_of_named (s : List Char) (h : matchesAt patNamed s = true) :
    matchesAt patDefault s = false := by
  have hl : 15 ≤ s.length := matchesAt_length h
  have := noMatchInside_spec (p := patDefault) (q := patNamed) (by decide) (s.take 15)
    (s.drop 15) (matchesAt_take h) 0 (by simp only [List.length_take]; omega)
  simpa using this

theorem respellFrom_named (s : List Char) (h : matchesAt patNamed s = true) :
    respellFrom [] s = patNamed ++ respellFrom [] (s.drop 15) := by
  have hm := matchesAt_take h
  have hl : 15 ≤ s.length := matchesAt_length h
  have hd := not_default_of_named s h
  cases s with
  | nil => simp at hl
  | cons c cs =>
    have hcs : cs = cs.take 14 ++ cs.drop 14 := (List.take_append_drop 14 cs).symm
    have hm2 : (cs.take 14).map canonicalize = patNamed.tail.map canonicalize := by
      simpa using map_tail_take h
    have hlen : (cs.take 14).length = 14 := by
      simp only [List.length_cons] at hl
      simp only [List.length_take]; omega
    have key := respellFrom_pending patNamed.tail (cs.take 14) (cs.drop 14)
      (by rw [hlen]; rfl)
      (importAt_inside (q := patNamed.tail) (by decide) (by decide) _ _ hm2)
    rw [← hcs] at key
    simp only [respellFrom, h, hd, if_true]
    show _ :: respellFrom patNamed.tail cs = _
    rw [key]
    rfl

theorem map_canonicalize_respellFrom (s : List Char) :
    (respellFrom [] s).map canonicalize = s.map canonicalize := by
  revert s
  apply cleanChars_cases
  · rfl
  · intro s h ih
    rw [respellFrom_default s h, List.map_append, ih, ← matchesAt_take h, ← List.map_append]
    exact congrArg _ (List.take_append_drop 14 s)
  · intro s h ih
    rw [respellFrom_named s h, List.map_append, ih, ← matchesAt_take h, ← List.map_append]
    exact congrArg _ (List.take_append_drop 15 s)
  · intro c cs h1 h2 ih
    rw [respellFrom_copy c cs (by simp [importAt, h1, h2]), List.map_cons, ih, List.map_cons]

theorem insertComments_pass (m v : List Char)
    (h : ∀ k, k < m.length → importAt (m.drop k ++ v) = false) :
    insertComments (m ++ v) = m ++ insertComments v := by
  induction m with
  | nil => simp
  | cons c cs ih =>
    have h0 := h 0 (by simp)
    simp only [List.drop_zero, List.cons_append] at h0
    have ih2 := ih (fun k hk => by simpa using h (k + 1) (by simpa using hk))
    simp [insertComments, h0, ih2]

theorem insertComments_default (y : List Char) :
    insertComments (patDefault ++ y) = repDefault ++ insertComments y := by
  have h0 : importAt (patDefault ++ y) = true := by
    simp [importAt, matchesAt_append y (show matchesAt patDefault patDefault = true by decide)]
  have key := insertComments_pass patDefault.tail y
    (importAt_inside (q := patDefault.tail) (by decide) (by decide) _ _ rfl)
  show insertComments ('i' :: (patDefault.tail ++ y)) = _
  rw [insertComments, if_pos (by exact h0), key]
  rfl

theorem insertComments_named (y : List Char) :
    insertComments (patNamed ++ y) = repNamed ++ insertComments y := by
  have h0 : importAt (patNamed ++ y) = true := by
    simp [importAt, matchesAt_append y (show matchesAt patNamed patNamed = true by decide)]
  have key := insertComments_pass patNamed.tail y
    (importAt_inside (q := patNamed.tail) (by decide) (by decide) _ _ rfl)
  show insertComments ('i' :: (patNamed.tail ++ y)) = _
  rw [insertComments, if_pos (by exact h0), key]
  rfl

theorem cleanChars_eq_insertComments (s : List Char) :
    cleanChars s = insertComments (respellFrom [] s) := by
  revert s
  apply cleanChars_cases
  · rfl
  · intro s h ih
    rw [cleanChars_default s h, respellFrom_default s h, insertComments_default, ih]
  · intro s h ih
    rw [cleanChars_named s h, respellFrom_named s h, insertComments_named, ih]
  · intro c cs h1 h2 ih
    have hi : importAt (c :: cs) = false := by simp [importAt, h1, h2]
    have hc : importAt (c :: respellFrom [] cs) = false := by
      have e : (c :: respellFrom [] cs).map canonicalize = (c :: cs).map canonicalize := by
        simp [map_canonicalize_respellFrom]
      simp only [importAt, matchesAt_congr e, h1, h2, Bool.or_self]
    rw [cleanChars_copy _ _ h1 h2, respellFrom_copy c cs hi, insertComments, if_neg (by simp [hc]), ih]

/-! ## Properties of `cleanDangerfile` -/

theorem matchesAt_self (p : List Char) : matchesAt p p = true := by
  induction p with
  | nil => rfl
  | cons x xs ih => simp [matchesAt, charMatches, ih]

/-- The text matches the pattern at its start exactly when it starts with a
spelling of the pattern that differs from it only in the case of ASCII letters. -/
theorem matchesAt_iff (p s : List Char) :
    matchesAt p s = true ↔
      ∃ m v, s = m ++ v ∧ m.map canonicalize = p.map canonicalize := by
  constructor
  · intro h
    exact ⟨s.take p.length, s.drop p.length, (List.take_append_drop _ _).symm, matchesAt_take h⟩
  · rintro ⟨m, v, rfl, hm⟩
    apply matchesAt_append
    rw [matchesAt_congr hm]
    exact matchesAt_self p

/-- An occurrence in the sense of `occursIn` is a factor of the text spelled like
the pattern up to the case of ASCII letters. -/
theorem occursIn_iff (p s : List Char) :
    occursIn p s = true ↔
      ∃ u m v, s = u ++ m ++ v ∧ m.map canonicalize = p.map canonicalize := by
  induction s with
  | nil =>
    simp only [occursIn, matchesAt_iff]
    constructor
    · rintro ⟨m, v, h, hm⟩
      exact ⟨[], m, v, by simpa using h, hm⟩
    · rintro ⟨u, m, v, h, hm⟩
      have hu : u = [] := by
        cases u with
        | nil => rfl
        | cons a u => simp at h
      subst hu
      exact ⟨m, v, by simpa using h, hm⟩
  | cons c cs ih =>
    simp only [occursIn, Bool.or_eq_true, ih, matchesAt_iff]
    constructor
    · rintro (⟨m, v, h, hm⟩ | ⟨u, m, v, h, hm⟩)
      · exact ⟨[], m, v, by simpa using h, hm⟩
      · exact ⟨c :: u, m, v, by simp [h], hm⟩
    · rintro ⟨u, m, v, h, hm⟩
      cases u with
      | nil => exact Or.inl ⟨m, v, by simpa using h, hm⟩
      | cons a u =>
        simp only [List.cons_append, List.cons.injEq] at h
        exact Or.inr ⟨u, m, v, by simpa using h.2, hm⟩

/-- C3 (as stated, refuted): a second application inserts a second `// `, both
on a fresh import and on a text whose import is already commented out. -/
theorem cleanDangerfile_twice_differs :
    cleanDangerfile (cleanDangerfile "import danger from 'x'")
        ≠ cleanDangerfile "import danger from 'x'" ∧
      cleanDangerfile "// import danger from 'x'" = "// // import danger from 'x'" := by
  decide

/-- C3 (amended): applying `cleanDangerfile` twice gives the same text as
applying it once exactly when the text contains no occurrence of `import danger `
and none of `import { danger`, letter case ignored; on such a text it changes
nothing, and on any other text each further application lengthens the text. -/
theorem cleanDangerfile_twice_iff (s : String) :
    cleanDangerfile (cleanDangerfile s) = cleanDangerfile s ↔
      (containsIgnoreCase s "import danger " = false ∧
        containsIgnoreCase s "import \x7b danger" = false) := by
  rw [String.ext_iff, cleanDangerfile_data, cleanDangerfile_data, cleanChars_twice_iff]
  simp only [importOccurs, Bool.or_eq_false_iff]
  rfl

/-- C4: in the output of `cleanDangerfile`, every occurrence of `import danger `
and of `import { danger`, letter case ignored, is immediately preceded by the
three characters `// `: however the output is cut in two, if the second part
starts with one of the patterns then the first part ends with `// `. -/
theorem cleanDangerfile_imports_commented (s u w : String)
    (h : cleanDangerfile s = u ++ w)
    (hw : startsWithIgnoreCase w "import danger " = true ∨
      startsWithIgnoreCase w "import \x7b danger" = true) :
    ∃ v : String, u = v ++ "// " := by
  have hd : cleanChars s.data = u.data ++ w.data := by
    rw [← cleanDangerfile_data, h, String.data_append]
  have hi : importAt w.data = true := by
    simp only [importAt, Bool.or_eq_true]
    exact hw
  obtain ⟨v, hv⟩ := cleanChars_commented s.data u.data w.data hd hi
  exact ⟨⟨v⟩, String.ext (by rw [hv, String.data_append]; rfl)⟩

theorem cleanDangerfile_imports_commented_witness :
    (∃ v : String, "// " = v ++ "// ") ∧ (∃ v : String, "x\n// " = v ++ "// ") :=
  ⟨cleanDangerfile_imports_commented "import danger from 'x'" "// " "import danger from 'x'"
      (by decide) (Or.inl (by decide)),
    cleanDangerfile_imports_commented "x\nImport \x7b danger \x7d from 'x'" "x\n// "
      "import \x7b danger \x7d from 'x'" (by decide) (Or.inr (by decide))⟩

/-- C5: a text with no occurrence of `import danger ` and none of
`import { danger`, letter case ignored, is returned unchanged. -/
theorem cleanDangerfile_unrelated (s : String)
    (h1 : containsIgnoreCase s "import danger " = false)
    (h2 : containsIgnoreCase s "import \x7b danger" = false) :
    cleanDangerfile s = s :=
  String.ext (by rw [cleanDangerfile_data]; exact cleanChars_of_no_occurrence s.data h1 h2)

theorem cleanDangerfile_unrelated_witness :
    cleanDangerfile "import dangerous from 'y'\nwarn(\"x\")"
      = "import dangerous from 'y'\nwarn(\"x\")" :=
  cleanDangerfile_unrelated "import dangerous from 'y'\nwarn(\"x\")" (by decide) (by decide)

/-- C6 (as stated, refuted): on an import written in upper case the output is
not the input with `// ` inserted; the matched text comes out in lower case, and
the input is not even a subsequence of the output, so that no deletion gives it
back. -/
theorem cleanDangerfile_lowers_match :
    cleanDangerfile "IMPORT Danger from 'x'" = "// import danger from 'x'" ∧
      cleanDangerfile "IMPORT Danger from 'x'" ≠ commentedInPlace "IMPORT Danger from 'x'" ∧
      ¬ List.Sublist "IMPORT Danger from 'x'".data
        (cleanDangerfile "IMPORT Danger from 'x'").data := by
  decide

/-- C6 (amended): `cleanDangerfile s` is the text `s`, with each match written in
lower case as the pattern spells it, in which `// ` is inserted immediately
before each match and no other character is changed; the text with the matches
in lower case differs from `s` in the case of ASCII letters only. -/
theorem cleanDangerfile_eq_commentedInPlace (s : String) :
    cleanDangerfile s = commentedInPlace (matchesLowered s) ∧
      (matchesLowered s).data.map canonicalize = s.data.map canonicalize :=
  ⟨String.ext (by
    rw [cleanDangerfile_data]
    exact cleanChars_eq_insertComments s.data), map_canonicalize_respellFrom s.data⟩

/-- C10: `cleanDangerfile` works line by line: the cleaned text of two texts
joined by a newline is the two cleaned texts joined by a newline, and the output
has as many newline characters as the input. -/
theorem cleanDangerfile_line_by_line (a b : String) :
    cleanDangerfile (a ++ "\n" ++ b) = cleanDangerfile a ++ "\n" ++ cleanDangerfile b ∧
      (cleanDangerfile a).data.count '\n' = a.data.count '\n' := by
  refine ⟨String.ext ?_, ?_⟩
  · simp only [cleanDangerfile_data, String.data_append]
    exact (by simpa using cleanChars_line a.data b.data)
  · rw [cleanDangerfile_data]
    exact count_newline_cleanChars a.data

/-! ## Properties of the environment and of a run -/

theorem digitChar_toNat (d : Nat) (h : d < 10) : (Nat.digitChar d).toNat - 48 = d := by
  interval_cases d <;> rfl

theorem readDecimal_toDigitsCore (fuel n : Nat) (ds : List Char) (h : n < fuel) :
    (Nat.toDigitsCore 10 fuel n ds).foldl (fun n c => n * 10 + (c.toNat - 48)) 0
      = ds.foldl (fun n c => n * 10 + (c.toNat - 48)) n := by
  induction fuel generalizing n ds with
  | zero => exact absurd h (Nat.not_lt_zero _)
  | succ fuel ih =>
    have hd := digitChar_toNat (n % 10) (Nat.mod_lt _ (by decide))
    unfold Nat.toDigitsCore
    by_cases h0 : n / 10 = 0
    · simp only [h0, if_true, List.foldl_cons, hd]
      have : n % 10 = n := Nat.mod_eq_of_lt (by omega)
      simp [this]
    · simp only [h0, if_false]
      rw [ih (n / 10) _ (by omega)]
      simp only [List.foldl_cons, hd]
      congr 1
      omega

theorem readDecimal_toString (n : Nat) : readDecimal (toString n).data = n := by
  show readDecimal (Nat.toDigits 10 n) = n
  unfold readDecimal Nat.toDigits
  rw [readDecimal_toDigitsCore _ _ _ (Nat.lt_succ_self n)]
  rfl

theorem toString_injective {i j : Nat} (h : toString i = toString j) : i = j := by
  have := congrArg (fun s : String => readDecimal s.data) h
  simpa [readDecimal_toString] using this

theorem JSObject.mem_forInFrom (ps : List Property) (visited : List String) (k : String) :
    k ∈ forInFrom ps visited ↔
      k ∉ visited ∧ ∃ p, ps.find? (fun q => q.key == k) = some p ∧ p.enumerable = true := by
  induction ps generalizing visited with
  | nil => simp [forInFrom]
  | cons p ps ih =>
    by_cases hk : p.key = k
    · subst hk
      by_cases hv : p.key ∈ visited
      · simp [forInFrom, hv, ih]
      · by_cases he : p.enumerable = true
        · simp [forInFrom, hv, he]
        · simp [forInFrom, hv, he, ih]
    · have hk2 : (p.key == k) = false := by simpa using hk
      have hk3 : ¬ k = p.key := fun h => hk h.symm
      by_cases hv : p.key ∈ visited
      · simp [forInFrom, hv, ih, hk2]
      · by_cases he : p.enumerable = true
        · simp [forInFrom, hv, he, ih, hk2, hk3]
        · simp [forInFrom, hv, he, ih, hk2, hk3]

/-- The keys that pass the test of the built-in `hasOwnProperty` are the own
enumerable ones. -/
theorem JSObject.forIn_own (o : JSObject) (k : String) :
    (k ∈ o.forIn ∧ o.hasOwnProperty k = true) ↔
      ∃ p, o.ownProperty k = some p ∧ p.enumerable = true := by
  unfold forIn hasOwnProperty ownProperty
  rw [mem_forInFrom, List.find?_append]
  cases h : List.find? (fun q => q.key == k) o.own with
  | none => simp
  | some p => simp

theorem JSObject.lookup_of_mem_forIn (o : JSObject) (k : String) (h : k ∈ o.forIn) :
    (o.lookup k).isSome = true := by
  unfold forIn at h
  rw [mem_forInFrom] at h
  obtain ⟨_, p, hp, _⟩ := h
  simp [lookup, hp]

theorem JSObject.get_own (o : JSObject) (k : String) (p : Property)
    (h : o.ownProperty k = some p) : o.get k = p.value := by
  unfold ownProperty at h
  simp [get, lookup, List.find?_append, h]

theorem callHasOwnProperty_builtin (host : Host) (context : Value) (prop : String) (w : World)
    (o : JSObject) (ho : toObject w.heap context = some o)
    (hb : o.get "hasOwnProperty" = Value.builtinHasOwnProperty) :
    callHasOwnProperty host context prop w = (w, Except.ok (o.hasOwnProperty prop)) := by
  simp [callHasOwnProperty, getMember, ho, hb]

theorem injectLoop_builtin (host : Host) (context : Value) (w : World) (o : JSObject)
    (ho : toObject w.heap context = some o)
    (hb : o.get "hasOwnProperty" = Value.builtinHasOwnProperty)
    (keys : List String) (hk : ∀ k ∈ keys, (o.lookup k).isSome = true) (g : Scope) :
    injectLoop host context keys w g = (w, injectOwn o keys g) := by
  induction keys generalizing g with
  | nil => rfl
  | cons x xs ih =>
    have hx := hk x (by simp)
    have ih2 := fun g => ih (fun k hk2 => hk k (by simp [hk2])) g
    rw [injectLoop, ho]
    simp only [hx, if_true, callHasOwnProperty_builtin host context x w o ho hb]
    cases hh : o.hasOwnProperty x with
    | false => simp [injectOwn, hh, ih2]
    | true =>
      simp only [getMember, ho, injectOwn, hh, if_true]
      cases hs : g.set x (o.get x) with
      | error e => rfl
      | ok g1 => exact ih2 g1

theorem Scope.set_ok (g g1 : Scope) (k : String) (v : Value) (h : g.set k v = Except.ok g1) :
    g1 = fun name => if name = k then some { value := v, writable := true } else g name := by
  unfold Scope.set at h
  cases hg : g k with
  | none => simp [hg] at h; exact h.symm
  | some b =>
    simp only [hg] at h
    split at h
    · simp at h; exact h.symm
    · simp at h

theorem injectOwn_apply (o : JSObject) (keys : List String) (g g1 : Scope)
    (h : injectOwn o keys g = Except.ok g1) (k : String) :
    g1 k = if k ∈ keys ∧ o.hasOwnProperty k = true
      then some { value := o.get k, writable := true } else g k := by
  induction keys generalizing g with
  | nil =>
    simp only [injectOwn, Except.ok.injEq] at h
    simp [h]
  | cons x xs ih =>
    unfold injectOwn at h
    by_cases hh : o.hasOwnProperty x = true
    · simp only [hh, if_true] at h
      cases hs : g.set x (o.get x) with
      | error e => simp [hs] at h
      | ok g2 =>
        simp only [hs] at h
        rw [ih g2 h, Scope.set_ok g g2 x _ hs]
        by_cases hx : k = x
        · subst hx
          simp [hh]
        · simp [hx]
    · simp only [hh] at h
      rw [ih g h]
      by_cases hx : k = x
      · subst hx
        simp [hh]
      · simp [hx]

/-- The scope after the loop, when the method is the built-in one and the loop
ends without a throw. -/
theorem injectGlobals_builtin (host : Host) (context : Value) (w w1 : World) (o : JSObject)
    (ho : toObject w.heap context = some o)
    (hb : o.get "hasOwnProperty" = Value.builtinHasOwnProperty)
    (g g1 : Scope) (h : injectGlobals host context w g = (w1, Except.ok g1)) (k : String) :
    w1 = w ∧ g1 k = if (∃ p, o.ownProperty k = some p ∧ p.enumerable = true)
      then some { value := o.get k, writable := true } else g k := by
  unfold injectGlobals at h
  simp only [ho] at h
  rw [injectLoop_builtin host context w o ho hb _ (fun k hk => o.lookup_of_mem_forIn k hk)] at h
  simp only [Prod.mk.injEq] at h
  refine ⟨h.1.symm, ?_⟩
  rw [injectOwn_apply o _ g g1 h.2 k]
  by_cases hp : ∃ p, o.ownProperty k = some p ∧ p.enumerable = true
  · rw [if_pos ((JSObject.forIn_own o k).2 hp), if_pos hp]
  · rw [if_neg (fun hc => hp ((JSObject.forIn_own o k).1 hc)), if_neg hp]

/-- What a resolved call to `createDangerfileRuntimeEnvironment` went through. -/
theorem create_ok (host : Host) (context : Value) (w : World) (env : DangerfileRuntimeEnv)
    (h : (createDangerfileRuntimeEnvironment host context w).result = Except.ok env) :
    ∃ tmpdir cwd fresh w1,
      host.tmpdir = Except.ok tmpdir ∧ host.cwd = Except.ok cwd ∧
      host.newNodeEnvironment (dangerConfig tmpdir cwd) = Except.ok fresh ∧
      injectGlobals host context w fresh.global = (w1, Except.ok env.environment.global) ∧
      env.context = context := by
  unfold createDangerfileRuntimeEnvironment at h
  cases h1 : host.tmpdir with
  | error e => simp [h1] at h
  | ok tmpdir =>
    cases h2 : host.cwd with
    | error e => simp [h1, h2] at h
    | ok cwd =>
      cases h3 : host.newNodeEnvironment (dangerConfig tmpdir cwd) with
      | error e => simp [h1, h2, h3] at h
      | ok fresh =>
        simp only [h1, h2, h3] at h
        rcases h4 : injectGlobals host context w fresh.global with ⟨w1, r⟩
        cases r with
        | error e => simp [h4] at h
        | ok injected =>
          simp only [h4] at h
          rcases h5 : host.buildHasteMap (dangerConfig tmpdir cwd) dangerHasteConfig w1
            with ⟨w2, r2⟩
          cases r2 with
          | error e => simp [h5] at h
          | ok moduleMap =>
            simp only [h5] at h
            cases h6 : host.createResolver (dangerConfig tmpdir cwd) moduleMap with
            | error e => simp [h6] at h
            | ok resolver =>
              simp only [h6] at h
              cases h7 : host.newRuntime (dangerConfig tmpdir cwd) { global := injected }
                resolver with
              | error e => simp [h7] at h
              | ok runtime =>
                simp only [h7, Except.ok.injEq] at h
                subst h
                exact ⟨tmpdir, cwd, fresh, w1, rfl, rfl, h3, h4, rfl⟩

theorem toString_ne_of_readDecimal (s : String) (h : toString (readDecimal s.data) ≠ s)
    (i : Nat) : toString i ≠ s := by
  intro hi
  apply h
  have := readDecimal_toString i
  rw [hi] at this
  rw [this]
  exact hi

theorem find_index_property (f : Nat × Nat → Property)
    (hf : ∀ x, (f x).key = toString x.1) (l : List Nat) (n i : Nat) (hi : i < l.length) :
    ((l.enumFrom n).map f).find? (fun p => p.key == toString (n + i))
      = some (f (n + i, l.get ⟨i, hi⟩)) := by
  induction l generalizing n i with
  | nil => simp at hi
  | cons x xs ih =>
    cases i with
    | zero => simp [hf]
    | succ j =>
      have hne : ¬ toString n = toString (n + (j + 1)) := fun h => by
        have := toString_injective h
        omega
      have hj : j < xs.length := by simpa using hi
      have ih2 := ih (n + 1) j hj
      rw [show n + 1 + j = n + (j + 1) by omega] at ih2
      have hb : ((f (n, x)).key == toString (n + (j + 1))) = false := by
        rw [hf]
        simpa using hne
      show List.find? _ (f (n, x) :: (xs.enumFrom (n + 1)).map f) = _
      rw [List.find?_cons, hb]
      exact ih2

theorem find_none_of_index (f : Nat × Nat → Property)
    (hf : ∀ x, (f x).key = toString x.1) (l : List Nat) (n : Nat) (k : String)
    (hk : ∀ i : Nat, toString i ≠ k) :
    ((l.enumFrom n).map f).find? (fun p => p.key == k) = none := by
  simp only [List.find?_eq_none, List.mem_map, beq_iff_eq]
  rintro p ⟨x, _, rfl⟩
  rw [hf]
  exact hk x.1

theorem stringObject_ownProperty (u : CodeUnits) (i : Nat) (hi : i < u.length) :
    (stringObject u).ownProperty (toString i)
      = some { key := toString i, value := Value.string [u.get ⟨i, hi⟩], enumerable := true } := by
  have := find_index_property
    (fun iu => { key := toString iu.1, value := Value.string [iu.2], enumerable := true })
    (fun _ => rfl) u 0 i hi
  simp only [Nat.zero_add] at this
  simp only [JSObject.ownProperty, stringObject, List.find?_append, List.enum]
  rw [this]
  rfl

theorem stringObject_own_enumerable (u : CodeUnits) (k : String) (p : Property)
    (hp : (stringObject u).ownProperty k = some p) (he : p.enumerable = true) :
    ∃ i, i < u.length ∧ k = toString i := by
  have hm := List.mem_of_find?_eq_some hp
  have hk := List.find?_some hp
  simp only [beq_iff_eq] at hk
  simp only [stringObject, List.mem_append, List.mem_map, List.mem_singleton] at hm
  rcases hm with ⟨x, hx, rfl⟩ | rfl
  · exact ⟨x.1, List.fst_lt_of_mem_enum hx, hk.symm⟩
  · simp at he

theorem stringObject_hasOwnProperty_builtin (u : CodeUnits) :
    (stringObject u).get "hasOwnProperty" = Value.builtinHasOwnProperty := by
  have h1 := find_none_of_index
    (fun iu => { key := toString iu.1, value := Value.string [iu.2], enumerable := true })
    (fun _ => rfl) u 0 "hasOwnProperty" (toString_ne_of_readDecimal _ (by decide))
  simp only [JSObject.get, JSObject.lookup, stringObject, List.enum, List.find?_append, h1]
  rfl

/-- C1 (as stated, refuted): `warn` is an own enumerable property of the bundle
`{hasOwnProperty: f, warn: g}` with `f` returning `false`, the call resolves, and
the scope has no global `warn`; for `{hasOwnProperty: 1}` and for `{NaN: 1}` the
call rejects with a `TypeError`. -/
theorem createDangerfileRuntimeEnvironment_own_key_not_injected :
    (sampleWorld.heap 4).ownProperty "warn"
        = some { key := "warn", value := Value.object 3, enumerable := true } ∧
      (∃ env, (createDangerfileRuntimeEnvironment sampleHost (Value.object 4) sampleWorld).result
        = Except.ok env ∧ env.environment.global "warn" = none) ∧
      (createDangerfileRuntimeEnvironment sampleHost (Value.object 6) sampleWorld).result
        = Except.error (JSError.type "context.hasOwnProperty is not a function") ∧
      (createDangerfileRuntimeEnvironment sampleHost (Value.object 7) sampleWorld).result
        = Except.error (JSError.type "Cannot assign to read only property") :=
  ⟨rfl, ⟨_, rfl, rfl⟩, rfl, rfl⟩

/-- C1 (amended): for a bundle `B` that is an object whose `hasOwnProperty` is the
built-in one, whenever `createDangerfileRuntimeEnvironment(B)` resolves, a key `k`
that is an own enumerable property of `B` is a global of the isolated scope
holding exactly `B[k]`, and for every other key (absent from `B`, only inherited
through the prototype chain, or own but not enumerable) the scope's binding is
the one the fresh scope had before the injection. -/
theorem createDangerfileRuntimeEnvironment_injects_own_enumerable (host : Host) (b : Addr)
    (w : World) (env : DangerfileRuntimeEnv)
    (hhas : (w.heap b).get "hasOwnProperty" = Value.builtinHasOwnProperty)
    (h : (createDangerfileRuntimeEnvironment host (Value.object b) w).result = Except.ok env)
    (k : String) :
    ∃ tmpdir cwd fresh,
      host.tmpdir = Except.ok tmpdir ∧ host.cwd = Except.ok cwd ∧
      host.newNodeEnvironment (dangerConfig tmpdir cwd) = Except.ok fresh ∧
      (∀ p, (w.heap b).ownProperty k = some p → p.enumerable = true →
        (env.environment.global k).map Binding.value = some ((w.heap b).get k) ∧
          (w.heap b).get k = p.value) ∧
      ((∀ p, (w.heap b).ownProperty k = some p → p.enumerable = false) →
        env.environment.global k = fresh.global k) := by
  obtain ⟨tmpdir, cwd, fresh, w1, h1, h2, h3, h4, _⟩ := create_ok host _ w env h
  have hk := (injectGlobals_builtin host (Value.object b) w w1 (w.heap b) rfl hhas _ _ h4 k).2
  refine ⟨tmpdir, cwd, fresh, h1, h2, h3, ?_, ?_⟩
  · intro p hp he
    rw [hk, if_pos ⟨p, hp, he⟩]
    exact ⟨rfl, JSObject.get_own _ _ _ hp⟩
  · intro hn
    rw [hk, if_neg]
    rintro ⟨p, hp, he⟩
    rw [hn p hp] at he
    exact Bool.noConfusion he

theorem createDangerfileRuntimeEnvironment_injects_own_enumerable_witness :
    (sampleEnv.environment.global "warn").map Binding.value = some (sampleBundle.get "warn") ∧
      sampleBundle.get "warn" = Value.object 3 :=
  have ⟨_, _, _, _, _, _, h1, _⟩ :=
    createDangerfileRuntimeEnvironment_injects_own_enumerable sampleHost 1 sampleWorld sampleEnv
      rfl rfl "warn"
  h1 { key := "warn", value := Value.object 3, enumerable := true } rfl rfl

/-- C2: when the file was rewritten and the module load completes, leaving the
world `w2`, `runDangerfileEnvironment` returns the `results` member read in `w2`
from the bundle stored in the environment at build time, whatever the module
exports; and if `results` was an own enumerable member of the bundle at build
time and still has that value after the load, that value is returned, and it is
the very one bound to the global `results` by a build that used the built-in
`hasOwnProperty`. -/
theorem runDangerfileEnvironment_returns_bundle_results (host : Host) (context : Value)
    (w0 : World) (env : DangerfileRuntimeEnv)
    (hcreate : (createDangerfileRuntimeEnvironment host context w0).result = Except.ok env)
    (filename : Path) (w w2 : World) (exports : Value)
    (hupdate : (updateDangerfile filename w).result = Except.ok ())
    (hload : env.runtime.requireModule filename (updateDangerfile filename w).world
      = (w2, Except.ok exports)) :
    (runDangerfileEnvironment filename env w).result = getMember w2.heap context "results" ∧
    (runDangerfileEnvironment filename env w).world = w2 ∧
    ∀ b p, context = Value.object b → (w0.heap b).ownProperty "results" = some p →
      p.enumerable = true → (w2.heap b).get "results" = p.value →
      (runDangerfileEnvironment filename env w).result = Except.ok p.value ∧
        ((w0.heap b).get "hasOwnProperty" = Value.builtinHasOwnProperty →
          (env.environment.global "results").map Binding.value = some p.value) := by
  obtain ⟨tmpdir, cwd, fresh, w1, h1, h2, h3, h4, hctx⟩ := create_ok host _ w0 env hcreate
  have hres : (runDangerfileEnvironment filename env w).result
      = getMember w2.heap context "results" := by
    simp only [runDangerfileEnvironment, hupdate, hload, hctx]
  refine ⟨hres, ?_, ?_⟩
  · simp only [runDangerfileEnvironment, hupdate, hload]
  · intro b p hb hp he hkeep
    subst hb
    constructor
    · rw [hres]
      simp only [getMember, toObject, hkeep]
    · intro hhas
      have hk := (injectGlobals_builtin host (Value.object b) w0 w1 (w0.heap b) rfl hhas _ _ h4
        "results").2
      rw [hk, if_pos ⟨p, hp, he⟩, JSObject.get_own _ _ _ hp]
      rfl

theorem runDangerfileEnvironment_returns_bundle_results_witness :
    (runDangerfileEnvironment "dangerfile.js" sampleEnv sampleWorld).result
        = getMember sampleWorld.heap (Value.object 1) "results" ∧
      (runDangerfileEnvironment "dangerfile.js" sampleEnv sampleWorld).result
        = Except.ok (Value.object 2) ∧
      (sampleEnv.environment.global "results").map Binding.value = some (Value.object 2) :=
  have h := runDangerfileEnvironment_returns_bundle_results sampleHost (Value.object 1)
    sampleWorld sampleEnv rfl "dangerfile.js" sampleWorld
    (updateDangerfile "dangerfile.js" sampleWorld).world Value.undefined rfl rfl
  have h2 := h.2.2 1 { key := "results", value := Value.object 2, enumerable := true }
    rfl rfl rfl rfl
  ⟨h.1.trans rfl, h2.1, h2.2 rfl⟩

theorem injectGlobals_plain (host : Host) (context : Value) (w : World) (g : Scope)
    (hp : context.isPrimitive = true) (hs : ∀ u, context ≠ Value.string u) :
    injectGlobals host context w g = (w, Except.ok g) := by
  cases context with
  | undefined => rfl
  | null => rfl
  | boolean v => rfl
  | number n => rfl
  | string u => exact absurd rfl (hs u)
  | object a => simp [Value.isPrimitive] at hp
  | builtinHasOwnProperty => simp [Value.isPrimitive] at hp

/-- A throw of `process.cwd()` ends the call before any scope is built, whatever
the bundle. -/
theorem create_fails_without_scope :
    (createDangerfileRuntimeEnvironment lostHost Value.null sampleWorld).result
        = Except.error (JSError.fileSystem "ENOENT" "uv_cwd") ∧
      (createDangerfileRuntimeEnvironment lostHost Value.null sampleWorld).trace = [] :=
  ⟨rfl, rfl⟩

/-- C7 (as stated, refuted): for the bundle `null` the call does not fail; it
builds the isolated scope and the module map and resolves to an environment. -/
theorem createDangerfileRuntimeEnvironment_null_succeeds :
    (createDangerfileRuntimeEnvironment sampleHost Value.null sampleWorld).result.toBool = true ∧
      (createDangerfileRuntimeEnvironment sampleHost Value.null sampleWorld).trace
        = [Event.scopeCreated, Event.hasteMapBuilt] :=
  ⟨rfl, rfl⟩

/-- C7 (amended): a bundle that is not an object is not rejected.  Once
`os.tmpdir()`, `process.cwd()` and the `NodeEnvironment` constructor have
succeeded the isolated scope is built, before the bundle is looked at.  For
`undefined`, `null`, a boolean or a number nothing is injected, and the call
resolves, to an environment with the bundle as context and the fresh scope,
whenever the module-map build, the resolver and the `Runtime` constructor
succeed.  For a string, when the call resolves, each index below the length in
UTF-16 code units is bound to the string of the code unit at that index, and no
other binding of the fresh scope is changed. -/
theorem createDangerfileRuntimeEnvironment_non_object (host : Host) (context : Value) (w : World)
    (tmpdir cwd : Path) (fresh : Environment)
    (hprim : context.isPrimitive = true)
    (h1 : host.tmpdir = Except.ok tmpdir) (h2 : host.cwd = Except.ok cwd)
    (h3 : host.newNodeEnvironment (dangerConfig tmpdir cwd) = Except.ok fresh) :
    (∃ rest, (createDangerfileRuntimeEnvironment host context w).trace
      = Event.scopeCreated :: rest) ∧
    ((∀ u, context ≠ Value.string u) → ∀ w2 moduleMap resolver runtime,
      host.buildHasteMap (dangerConfig tmpdir cwd) dangerHasteConfig w
        = (w2, Except.ok moduleMap) →
      host.createResolver (dangerConfig tmpdir cwd) moduleMap = Except.ok resolver →
      host.newRuntime (dangerConfig tmpdir cwd) fresh resolver = Except.ok runtime →
      (createDangerfileRuntimeEnvironment host context w).result
        = Except.ok { context := context, environment := fresh, runtime := runtime }) ∧
    (∀ u env, context = Value.string u →
      (createDangerfileRuntimeEnvironment host context w).result = Except.ok env →
      env.context = context ∧
      (∀ i (hi : i < u.length), env.environment.global (toString i)
        = some { value := Value.string [u.get ⟨i, hi⟩], writable := true }) ∧
      (∀ k, (∀ i, i < u.length → k ≠ toString i) →
        env.environment.global k = fresh.global k)) := by
  refine ⟨?_, ?_, ?_⟩
  · unfold createDangerfileRuntimeEnvironment
    simp only [h1, h2, h3]
    rcases injectGlobals host context w fresh.global with ⟨w1, r⟩
    cases r with
    | error e => exact ⟨_, rfl⟩
    | ok g =>
      simp only
      rcases host.buildHasteMap (dangerConfig tmpdir cwd) dangerHasteConfig w1 with ⟨w2, r2⟩
      cases r2 with
      | error e => exact ⟨_, rfl⟩
      | ok m =>
        simp only
        cases host.createResolver (dangerConfig tmpdir cwd) m with
        | error e => exact ⟨_, rfl⟩
        | ok res =>
          simp only
          cases host.newRuntime (dangerConfig tmpdir cwd) { global := g } res with
          | error e => exact ⟨_, rfl⟩
          | ok rt => exact ⟨_, rfl⟩
  · intro hs w2 moduleMap resolver runtime h5 h6 h7
    have h7b : host.newRuntime (dangerConfig tmpdir cwd) { global := fresh.global } resolver
        = Except.ok runtime := h7
    unfold createDangerfileRuntimeEnvironment
    simp only [h1, h2, h3, injectGlobals_plain host context w fresh.global hprim hs, h5, h6, h7b]
  · intro u env hu h
    obtain ⟨tmpdir2, cwd2, fresh2, w1, e1, e2, e3, h4, hctx⟩ := create_ok host _ w env h
    rw [h1] at e1
    rw [h2] at e2
    cases e1
    cases e2
    rw [h3] at e3
    cases e3
    subst hu
    have hk := fun k => (injectGlobals_builtin host (Value.string u) w w1 (stringObject u) rfl
      (stringObject_hasOwnProperty_builtin u) _ _ h4 k).2
    refine ⟨hctx, ?_, ?_⟩
    · intro i hi
      have hp := stringObject_ownProperty u i hi
      rw [hk, if_pos ⟨_, hp, rfl⟩, JSObject.get_own _ _ _ hp]
    · intro k hne
      rw [hk, if_neg]
      rintro ⟨p, hp, he⟩
      obtain ⟨i, hi, rfl⟩ := stringObject_own_enumerable u k p hp he
      exact hne i hi rfl

theorem createDangerfileRuntimeEnvironment_non_object_witness :
    (createDangerfileRuntimeEnvironment sampleHost Value.null sampleWorld).result
        = Except.ok sampleNullEnv ∧
      codeUnits "a😀" = [97, 55357, 56832] ∧
      sampleStringEnv.environment.global (toString 1)
        = some { value := Value.string [55357], writable := true } ∧
      sampleStringEnv.environment.global "length" = freshScope "length" :=
  have hnull := (createDangerfileRuntimeEnvironment_non_object sampleHost Value.null sampleWorld
    "/tmp" "/repo" { global := freshScope } rfl rfl rfl rfl).2.1
    (fun _ h => Value.noConfusion h) sampleWorld [] _ idleRuntime rfl rfl rfl
  have hstr := (createDangerfileRuntimeEnvironment_non_object sampleHost
    (Value.string [97, 55357, 56832]) sampleWorld
    "/tmp" "/repo" { global := freshScope } rfl rfl rfl rfl).2.2
    [97, 55357, 56832] sampleStringEnv rfl rfl
  ⟨hnull, by decide, hstr.2.1 1 (by decide), hstr.2.2 "length" (by decide)⟩

/-- C8: `runDangerfileEnvironment` does not swallow errors.  If reading the file
fails with `e`, the call fails with `e`, nothing is written and the module
loader is not invoked; if the module load throws `e`, the call fails with
exactly `e`. -/
theorem runDangerfileEnvironment_propagates_errors (filename : Path)
    (env : DangerfileRuntimeEnv) (w : World) :
    (∀ e, readFileSync filename w = Except.error e →
      (runDangerfileEnvironment filename env w).result = Except.error e ∧
      (runDangerfileEnvironment filename env w).trace = []) ∧
    (∀ w2 e, (updateDangerfile filename w).result = Except.ok () →
      env.runtime.requireModule filename (updateDangerfile filename w).world
        = (w2, Except.error e) →
      (runDangerfileEnvironment filename env w).result = Except.error e) := by
  constructor
  · intro e he
    simp [runDangerfileEnvironment, updateDangerfile, he]
  · intro w2 e hu hl
    simp only [runDangerfileEnvironment, hu, hl]

theorem runDangerfileEnvironment_propagates_errors_witness :
    ((runDangerfileEnvironment "missing.js" sampleEnv sampleWorld).result
        = Except.error (JSError.fileSystem "ENOENT" "missing.js") ∧
      (runDangerfileEnvironment "missing.js" sampleEnv sampleWorld).trace = []) ∧
    (runDangerfileEnvironment "dangerfile.js" { sampleEnv with runtime := throwingRuntime }
        sampleWorld).result = Except.error (JSError.thrown (Value.string (codeUnits "boom"))) :=
  ⟨(runDangerfileEnvironment_propagates_errors "missing.js" sampleEnv sampleWorld).1 _ rfl,
    (runDangerfileEnvironment_propagates_errors "dangerfile.js"
      { sampleEnv with runtime := throwingRuntime } sampleWorld).2 _ _ rfl rfl⟩

/-- C9: for a file that is readable and writable with contents `c`,
`runDangerfileEnvironment` first overwrites that file with `cleanDangerfile c`,
leaving every other file and the objects untouched, and then calls
`requireModule` exactly once, with the same path and on the world in which the
file holds `cleanDangerfile c`; the outcome of the run is the one of that call. -/
theorem runDangerfileEnvironment_cleans_before_load (filename : Path)
    (env : DangerfileRuntimeEnv) (w : World) (f : File) (hf : w.files filename = some f)
    (hr : f.readable = true) (hw : f.writable = true) :
    ∃ w1 : World,
      w1.files filename = some { f with contents := cleanDangerfile f.contents } ∧
      (∀ p, p ≠ filename → w1.files p = w.files p) ∧
      w1.heap = w.heap ∧
      (runDangerfileEnvironment filename env w).trace
        = [Event.fileWritten filename (cleanDangerfile f.contents),
           Event.moduleRequired filename (some (cleanDangerfile f.contents))] ∧
      (runDangerfileEnvironment filename env w).world
        = (env.runtime.requireModule filename w1).1 ∧
      (runDangerfileEnvironment filename env w).result
        = (env.runtime.requireModule filename w1).2.bind
          (fun _ => getMember (env.runtime.requireModule filename w1).1.heap env.context
            "results") := by
  have hu : updateDangerfile filename w =
      { trace := [Event.fileWritten filename (cleanDangerfile f.contents)],
        world := w.store filename { f with contents := cleanDangerfile f.contents },
        result := Except.ok () } := by
    simp [updateDangerfile, readFileSync, writeFileSync, hf, hr, hw]
  refine ⟨w.store filename { f with contents := cleanDangerfile f.contents },
    by simp [World.store], fun p hp => by simp [World.store, hp], rfl, ?_, ?_, ?_⟩
  · simp only [runDangerfileEnvironment, hu]
    rcases env.runtime.requireModule filename _ with ⟨w2, r⟩
    cases r <;> simp [textOnDisk, World.store]
  · simp only [runDangerfileEnvironment, hu]
    rcases env.runtime.requireModule filename _ with ⟨w2, r⟩
    cases r <;> rfl
  · simp only [runDangerfileEnvironment, hu]
    rcases env.runtime.requireModule filename _ with ⟨w2, r⟩
    cases r <;> rfl

theorem runDangerfileEnvironment_cleans_before_load_witness :
    ∃ w1 : World,
      w1.files "dangerfile.js" = some
        { contents := cleanDangerfile "import danger from 'danger'\nwarn(1)",
          readable := true, writable := true } ∧
      (runDangerfileEnvironment "dangerfile.js" sampleEnv sampleWorld).trace
        = [Event.fileWritten "dangerfile.js"
            (cleanDangerfile "import danger from 'danger'\nwarn(1)"),
           Event.moduleRequired "dangerfile.js"
            (some (cleanDangerfile "import danger from 'danger'\nwarn(1)"))] :=
  have ⟨w1, h1, _, _, h4, _⟩ :=
    runDangerfileEnvironment_cleans_before_load "dangerfile.js" sampleEnv sampleWorld
      { contents := "import danger from 'danger'\nwarn(1)", readable := true, writable := true }
      rfl rfl rfl
  ⟨w1, h1, h4⟩

end DangerfileRunner
